import Mathlib

/-!
Verification development for the Tendermint BFT consensus engine of
`ethcore/src/engines/tendermint/mod.rs` (round-robin proof-of-authority).

Shallow embedding conventions:
* `Address`, `BlockHash` (H256) and `H520` signatures are abstracted as `Nat`;
  `Bytes` is `List Nat`.
* The stateful engine (`Tendermint` struct) becomes explicit state passing on
  `EngineState`; the atomic round counter and proposer nonce are plain fields.
* The step `RwLock` is modelled by a `lockHeld` flag threaded into `to_step`:
  `try_write().unwrap()` on an already-held lock is a panic, rendered as
  `Option`/`EResult.panicked`.  In Rust, a lock guard created in a `match`
  scrutinee lives until the end of the whole `match` expression, so a call
  made inside a match arm still holds the lock.
* RLP encoding of a signature (`encode(&signature)`) and signer recovery
  (`recover`/`public_to_address`) live outside the engine; the engine
  definitions are parametric over them (`encodeSig`, `toAddr`).
* U256 header quantities (difficulty, gas limit) are modelled as exact `Nat`
  arithmetic: the gas-limit bound computation never underflows since
  `g / d ≤ g`.
-/

abbrev Address : Type := Nat
abbrev BlockHash : Type := Nat
abbrev H520 : Type := Nat
abbrev Bytes : Type := List Nat
abbrev Seal : Type := List Bytes

/-- Engine-level consensus errors (`EngineError` in `engines/mod.rs`). -/
inductive EngineError where
  | WrongStep
  | WrongRound
  | WrongVote
  | UnknownStep
  deriving DecidableEq

/-- Block verification errors (`BlockError`), with the payloads the engine
fills in (`Mismatch`/`OutOfBounds` reduced to their numeric content). -/
inductive BlockError where
  | InvalidSealArity (expected found : Nat)
  | InvalidSeal
  | InvalidDifficulty (expected found : Nat)
  | InvalidGasLimit (min max found : Nat)
  | RidiculousNumber (found : Nat)
  deriving DecidableEq

/-- The unified `Error` type: engine errors, block errors, RLP decode
failures and signature-recovery failures. -/
inductive Error where
  | Engine (e : EngineError)
  | Block (e : BlockError)
  | Decoder
  | Crypto
  deriving DecidableEq

/-- Modelled from the spec: `ProposeCollect` (the vote collector,
`engines/propose_collect.rs`) is not under `src/`; §3/§4.1 of the spec define
it as holding the target block hash, the validator set, the set of
already-counted voters (double counting must never increase the tally) and
the precomputed threshold. -/
structure ProposeCollect where
  hash : BlockHash
  validators : Finset Address
  voted : Finset Address
  threshold : Nat
  deriving DecidableEq

/-- Modelled from the spec (§4.1): `vote(voter)` records a vote for the held
target hash and returns whether the vote was newly counted (idempotent). -/
def ProposeCollect.vote (v : ProposeCollect) (voter : Address) :
    Bool × ProposeCollect :=
  if voter ∈ v.voted then (false, v)
  else (true, { v with voted := insert voter v.voted })

/-- Modelled from the spec (§4.1/§3): `is_won()` is true once the number of
distinct counted voters strictly exceeds the threshold. -/
def ProposeCollect.is_won (v : ProposeCollect) : Bool :=
  v.threshold < v.voted.card

/-- Consensus step (`enum Step`): `Precommit` carries the vote collector and
the accumulating seal, `Commit` the agreed hash and the complete seal. -/
inductive Step where
  | Propose
  | Prevote (v : ProposeCollect)
  | Precommit (v : ProposeCollect) (sealAcc : Seal)
  | Commit (hash : BlockHash) (sealAcc : Seal)
  deriving DecidableEq

/-- Immutable engine configuration (`TendermintParams`; `params.rs` is not
under `src/`, so per the spec §3 the validator set is an ordered list whose
size is `n`, plus the gas-limit bound divisor). -/
structure TendermintParams where
  validators : List Address
  gas_limit_bound_divisor : Nat
  deriving DecidableEq

/-- `validator_n`: the size of the validator set. -/
def TendermintParams.validator_n (p : TendermintParams) : Nat :=
  p.validators.length

/-- The mutable engine state: consensus round `r`, consensus step `s`
(behind the step lock in the source) and the proposer nonce. -/
structure EngineState where
  r : Nat
  s : Step
  proposer_nonce : Nat
  deriving DecidableEq

/-- `Tendermint::threshold`: `validator_n * 2 / 3` in integer arithmetic. -/
def threshold (p : TendermintParams) : Nat :=
  p.validator_n * 2 / 3

/-- `Tendermint::proposer`: `validators.get(proposer_nonce % validator_n)`.
The source `unwrap`s the lookup; we keep the `Option` (it is `some` whenever
the validator list is nonempty). -/
def proposer (p : TendermintParams) (nonce : Nat) : Option Address :=
  p.validators.get? (nonce % p.validator_n)

/-- `Tendermint::is_proposer`. -/
def is_proposer (p : TendermintParams) (nonce : Nat) (address : Address) :
    Bool :=
  proposer p nonce == some address

/-- `Tendermint::is_validator`: membership in the validator list. -/
def is_validator (p : TendermintParams) (address : Address) : Bool :=
  p.validators.contains address

/-- The validator set as a `HashSet`
(`our_params.validators.iter().cloned().collect()`). -/
def validatorSet (p : TendermintParams) : Finset Address :=
  p.validators.toFinset

/-- `Tendermint::new_vote`: a fresh collector for `proposal` over the
validator set with the engine's threshold. -/
def new_vote (p : TendermintParams) (proposal : BlockHash) : ProposeCollect :=
  { hash := proposal
    validators := validatorSet p
    voted := ∅
    threshold := threshold p }

/-- `Tendermint::to_step`: `self.s.try_write().unwrap(); *guard = step`.
If the step lock is already held the `try_write` fails and the `unwrap`
panics, modelled as `none`. -/
def to_step (lockHeld : Bool) (st : EngineState) (step : Step) :
    Option EngineState :=
  if lockHeld then none else some { st with s := step }

/-- `Tendermint::to_propose`: advance the proposer nonce by one, then set
`Step::Propose`. -/
def to_propose (lockHeld : Bool) (st : EngineState) : Option EngineState :=
  to_step lockHeld { st with proposer_nonce := st.proposer_nonce + 1 }
    Step.Propose

/-- `Tendermint::to_prevote`: enter `Step::Prevote` with a fresh collector
for `proposal`. -/
def to_prevote (p : TendermintParams) (lockHeld : Bool) (st : EngineState)
    (proposal : BlockHash) : Option EngineState :=
  to_step lockHeld st (Step.Prevote (new_vote p proposal))

/-- `Tendermint::to_precommit`: enter `Step::Precommit` with a fresh
collector for `proposal` and an empty seal. -/
def to_precommit (p : TendermintParams) (lockHeld : Bool) (st : EngineState)
    (proposal : BlockHash) : Option EngineState :=
  to_step lockHeld st (Step.Precommit (new_vote p proposal) [])

/-- `Tendermint::to_commit`: enter `Step::Commit(block_hash, seal)`. -/
def to_commit (lockHeld : Bool) (st : EngineState) (block_hash : BlockHash)
    (sealAcc : Seal) : Option EngineState :=
  to_step lockHeld st (Step.Commit block_hash sealAcc)

/-- The RLP payload item at position 2 of a consensus message: either a
well-formed block hash or an item whose `as_val::<H256>()` decode fails. -/
inductive Payload where
  | hash (h : BlockHash)
  | garbage
  deriving DecidableEq

/-- `message.as_val::<BlockHash>()` on the payload item. -/
def Payload.as_hash : Payload → Except Error BlockHash
  | Payload.hash h => Except.ok h
  | Payload.garbage => Except.error Error.Decoder

/-- `message.as_raw().to_vec()` on the payload item: an abstract stand-in
for the item's raw RLP bytes (injective on well-formed hashes). -/
def Payload.rawBytes : Payload → Bytes
  | Payload.hash h => [h]
  | Payload.garbage => []

/-- Modelled from the spec (§4.3): the raw consensus message
(`ConsensusMessage` decoding lives in `tendermint/message.rs`, not under
`src/`).  Per the spec a decodable message yields a round, a step tag and a
payload (unknown tags are handled at dispatch); any decode failure
(`as_val`/`val_at`) is a single fatal error for the message, modelled by
`malformed`. -/
inductive RawMsg where
  | msg (round : Nat) (tag : Nat) (payload : Payload)
  | malformed
  deriving DecidableEq

/-- Result of a message-handling engine operation: success or a protocol
error carry the raw bytes to gossip and the post-call engine state; a failed
step-lock acquisition is a panic (`panicked`). -/
inductive EResult (α : Type) where
  | ok (a : α) (st : EngineState)
  | err (e : Error) (st : EngineState)
  | panicked
  deriving DecidableEq

/-- `Tendermint::propose_message`: only valid in `Step::Propose` (checked
under a read guard that is dropped before the transition), then decode the
proposal hash and move to `Step::Prevote`. -/
def propose_message (p : TendermintParams) (payload : Payload)
    (st : EngineState) : EResult Bytes :=
  match st.s with
  | Step.Propose =>
    match payload.as_hash with
    | Except.error e => EResult.err e st
    | Except.ok proposal =>
      match to_prevote p false st proposal with
      | none => EResult.panicked
      | some st' => EResult.ok payload.rawBytes st'
  | _ => EResult.err (Error.Engine EngineError.WrongStep) st

/-- `Tendermint::prevote_message`: valid only in `Step::Prevote`; a vote for
the collector's hash is registered; if the collector is then won the engine
moves to `Step::Precommit` (the write guard is dropped at the end of the
`let hash = match ...;` statement, so `to_precommit` runs with the lock
free); otherwise the message is just propagated. -/
def prevote_message (p : TendermintParams) (sender : Address)
    (payload : Payload) (st : EngineState) : EResult Bytes :=
  match st.s with
  | Step.Prevote vote =>
    match payload.as_hash with
    | Except.error e => EResult.err e st
    | Except.ok h =>
      if vote.hash = h then
        let vote' := (vote.vote sender).2
        if vote'.is_won then
          match to_precommit p false { st with s := Step.Prevote vote' }
              vote'.hash with
          | none => EResult.panicked
          | some st' => EResult.ok payload.rawBytes st'
        else EResult.ok payload.rawBytes { st with s := Step.Prevote vote' }
      else EResult.err (Error.Engine EngineError.WrongVote) st
  | _ => EResult.err (Error.Engine EngineError.WrongStep) st

/-- `Tendermint::precommit_message`: valid only in `Step::Precommit`; a vote
for the collector's hash is registered and, when newly counted, the encoded
signature is pushed onto the accumulating seal.  If the collector is then
won, `to_commit` is invoked *inside the match arm*: the write guard acquired
in the match scrutinee is still alive there (Rust scrutinee temporaries live
to the end of the `match`), so the nested `try_write().unwrap()` in
`to_step` runs with the lock held. -/
def precommit_message (p : TendermintParams) (encodeSig : H520 → Bytes)
    (sender : Address) (signature : H520) (payload : Payload)
    (st : EngineState) : EResult Bytes :=
  match st.s with
  | Step.Precommit vote sealAcc =>
    match payload.as_hash with
    | Except.error e => EResult.err e st
    | Except.ok h =>
      if vote.hash = h then
        let newly := (vote.vote sender).1
        let vote' := (vote.vote sender).2
        let sealAcc' := if newly then sealAcc ++ [encodeSig signature] else sealAcc
        if vote'.is_won then
          match to_commit true { st with s := Step.Precommit vote' sealAcc' }
              vote'.hash sealAcc' with
          | none => EResult.panicked
          | some st' => EResult.ok payload.rawBytes st'
        else
          EResult.ok payload.rawBytes
            { st with s := Step.Precommit vote' sealAcc' }
      else EResult.err (Error.Engine EngineError.WrongVote) st
  | _ => EResult.err (Error.Engine EngineError.WrongStep) st

/-- `Engine::handle_message` for `Tendermint`: decode the consensus message,
check the round, then dispatch on the step tag with the eligibility guards
(`is_proposer` for tag 0, `is_validator` for tags 1/2); any other case is
`UnknownStep`. -/
def handle_message (p : TendermintParams) (encodeSig : H520 → Bytes)
    (sender : Address) (signature : H520) (message : RawMsg)
    (st : EngineState) : EResult Bytes :=
  match message with
  | RawMsg.malformed => EResult.err Error.Decoder st
  | RawMsg.msg round tag payload =>
    if st.r ≠ round then EResult.err (Error.Engine EngineError.WrongRound) st
    else if tag = 0 then
      if is_proposer p st.proposer_nonce sender then
        propose_message p payload st
      else EResult.err (Error.Engine EngineError.UnknownStep) st
    else if tag = 1 then
      if is_validator p sender then prevote_message p sender payload st
      else EResult.err (Error.Engine EngineError.UnknownStep) st
    else if tag = 2 then
      if is_validator p sender then
        precommit_message p encodeSig sender signature payload st
      else EResult.err (Error.Engine EngineError.UnknownStep) st
    else EResult.err (Error.Engine EngineError.UnknownStep) st

/-- `Engine::generate_seal` for `Tendermint`: with the step lock free
(sequential use; a held lock would just yield `None` via `try_read`),
return the accumulated seal iff the step is `Commit` for exactly the
candidate block's bare hash. -/
def generate_seal (st : EngineState) (block_bare_hash : BlockHash) :
    Option Seal :=
  match st.s with
  | Step.Commit hash sealAcc =>
    if hash = block_bare_hash then some sealAcc else none
  | _ => none

/-- The block header fields the engine's verifiers read: number, difficulty,
gas limit, the raw seal entries and the hash-without-seal (`bare_hash`,
abstracted as a field since hashing is external). -/
structure Header where
  number : Nat
  difficulty : Nat
  gas_limit : Nat
  sealEntries : Seal
  bare_hash : BlockHash
  deriving DecidableEq

/-- `Engine::seal_fields` for `Tendermint`: 2. -/
def seal_fields : Nat := 2

/-- `Engine::verify_block_basic` for `Tendermint`: the seal field count must
equal `seal_fields`, otherwise `InvalidSealArity {expected, found}`. -/
def verify_block_basic (header : Header) : Except Error Unit :=
  if header.sealEntries.length = seal_fields then Except.ok ()
  else
    Except.error
      (Error.Block (BlockError.InvalidSealArity seal_fields
        header.sealEntries.length))

/-- `header.seal().iter().map(to_address).collect::<Result<HashSet<_>,_>>()`:
left-to-right, failing fast with the first entry's error, otherwise the set
of recovered addresses.  `toAddr` is the abstract
`|b| public_to_address(recover(decode::<H520>(b)?, bare)?)`. -/
def collectSealSet (toAddr : Bytes → Except Error Address) :
    Seal → Except Error (Finset Address)
  | [] => Except.ok ∅
  | b :: rest =>
    match toAddr b with
    | Except.error e => Except.error e
    | Except.ok a =>
      match collectSealSet toAddr rest with
      | Except.error e => Except.error e
      | Except.ok s => Except.ok (insert a s)

/-- `Engine::verify_block_unordered` for `Tendermint`: recover one address
per raw seal entry over the header's bare hash (failing fast on a bad
signature), then fail with `InvalidSeal` unless the recovered set intersected
with the validator set is strictly larger than the threshold. -/
def verify_block_unordered (p : TendermintParams)
    (toAddr : Bytes → BlockHash → Except Error Address) (header : Header) :
    Except Error Unit :=
  match collectSealSet (fun b => toAddr b header.bare_hash)
      header.sealEntries with
  | Except.error e => Except.error e
  | Except.ok seal_set =>
    if (seal_set ∩ validatorSet p).card ≤ threshold p then
      Except.error (Error.Block BlockError.InvalidSeal)
    else Except.ok ()

/-- `Engine::verify_block_family` for `Tendermint`: number 0 is
`RidiculousNumber`; difficulty must equal the parent's; the gas limit must
lie strictly between `parent ∓ parent / gas_limit_bound_divisor`. -/
def verify_block_family (p : TendermintParams) (header parent : Header) :
    Except Error Unit :=
  if header.number = 0 then
    Except.error (Error.Block (BlockError.RidiculousNumber header.number))
  else if header.difficulty ≠ parent.difficulty then
    Except.error
      (Error.Block
        (BlockError.InvalidDifficulty parent.difficulty header.difficulty))
  else
    let min_gas :=
      parent.gas_limit - parent.gas_limit / p.gas_limit_bound_divisor
    let max_gas :=
      parent.gas_limit + parent.gas_limit / p.gas_limit_bound_divisor
    if header.gas_limit ≤ min_gas ∨ max_gas ≤ header.gas_limit then
      Except.error
        (Error.Block
          (BlockError.InvalidGasLimit min_gas max_gas header.gas_limit))
    else Except.ok ()

/-! ### Concrete fixtures used by witnesses -/

/-- A four-validator configuration (threshold `4*2/3 = 2`). -/
def p4 : TendermintParams := ⟨[10, 11, 12, 13], 1024⟩

/-- A concrete stand-in for RLP signature encoding. -/
def encId : H520 → Bytes := fun s => [s]

/-- Claim C1: for every validator count `n` the quorum threshold is
`⌊n*2/3⌋`, and every quorum decision is strict: a vote collector is won iff
strictly more than `threshold` distinct voters voted, a seal passes
`verify_block_unordered` iff strictly more than `threshold` distinct
recovered validator addresses signed, and for `n = 4` the threshold is 2. -/
theorem quorum_threshold_strict (p : TendermintParams) (v : ProposeCollect)
    (toAddr : Bytes → BlockHash → Except Error Address) (header : Header) :
    threshold p = p.validator_n * 2 / 3
    ∧ (v.is_won = true ↔ v.threshold < v.voted.card)
    ∧ (verify_block_unordered p toAddr header = Except.ok () ↔
        ∃ s, collectSealSet (fun b => toAddr b header.bare_hash)
              header.sealEntries = Except.ok s
          ∧ threshold p < (s ∩ validatorSet p).card)
    ∧ (∀ q : TendermintParams, q.validator_n = 4 → threshold q = 2) := by
  refine ⟨rfl, ?_, ?_, ?_⟩
  · simp [ProposeCollect.is_won]
  · unfold verify_block_unordered
    cases hc : collectSealSet (fun b => toAddr b header.bare_hash)
        header.sealEntries with
    | error e => simp
    | ok s =>
      by_cases hcard : (s ∩ validatorSet p).card ≤ threshold p
      · simp [hcard, Nat.not_lt_of_le hcard]
      · simp [hcard, Nat.lt_of_not_le hcard]
  · intro q hq
    simp [threshold, hq]

/-- Witness for C1 at the boundary configuration `n = 4`. -/
theorem quorum_threshold_strict_witness :
    threshold p4 = 2
    ∧ (ProposeCollect.is_won ⟨77, {10, 11, 12, 13}, {10, 11, 12}, 2⟩
        = true ↔ (2 : Nat) < 3) :=
  ⟨(quorum_threshold_strict p4 ⟨77, {10, 11, 12, 13}, {10, 11, 12}, 2⟩
      (fun _ _ => Except.error Error.Crypto) ⟨0, 0, 0, [], 0⟩).2.2.2 p4
      (by decide),
   by
    have h := (quorum_threshold_strict p4
      ⟨77, {10, 11, 12, 13}, {10, 11, 12}, 2⟩
      (fun _ _ => Except.error Error.Crypto) ⟨0, 0, 0, [], 0⟩).2.1
    simpa using h⟩

/-- Claim C4: `generate_seal` returns the accumulated seal iff the engine
step is `Commit` for exactly the candidate block's bare hash; any other
step, or a hash mismatch, yields `none`. -/
theorem generate_seal_iff_commit (st : EngineState) (bh : BlockHash)
    (sl : Seal) :
    generate_seal st bh = some sl ↔ st.s = Step.Commit bh sl := by
  obtain ⟨r, s, n⟩ := st
  cases s with
  | Propose => simp [generate_seal]
  | Prevote v => simp [generate_seal]
  | Precommit v acc => simp [generate_seal]
  | Commit h acc =>
    by_cases hh : h = bh
    · subst hh
      simp [generate_seal, eq_comm]
    · simp [generate_seal, hh, Ne.symm hh]

/-- Claim C7: a well-formed consensus message whose round field differs
from the engine's current round always fails with `WrongRound`, whatever
the step tag, the engine step or the sender. -/
theorem wrong_round_always_rejected (p : TendermintParams)
    (encodeSig : H520 → Bytes) (sender : Address) (signature : H520)
    (round tag : Nat) (payload : Payload) (st : EngineState)
    (hr : st.r ≠ round) :
    handle_message p encodeSig sender signature
        (RawMsg.msg round tag payload) st
      = EResult.err (Error.Engine EngineError.WrongRound) st := by
  simp [handle_message, hr]

/-- Witness for C7: a round-1 prevote hits a round-0 engine. -/
theorem wrong_round_always_rejected_witness :
    handle_message p4 encId 10 9 (RawMsg.msg 1 1 (Payload.hash 77))
        ⟨0, Step.Propose, 0⟩
      = EResult.err (Error.Engine EngineError.WrongRound)
          ⟨0, Step.Propose, 0⟩ :=
  wrong_round_always_rejected p4 encId 10 9 1 1 (Payload.hash 77)
    ⟨0, Step.Propose, 0⟩ (by decide)

/-- Helper: `propose_message` leaves the state untouched whenever it
returns an error. -/
theorem propose_message_err_stable (p : TendermintParams) (payload : Payload)
    (st : EngineState) (e : Error) (st' : EngineState)
    (h : propose_message p payload st = EResult.err e st') : st' = st := by
  obtain ⟨r, s, n⟩ := st
  cases s with
  | Propose =>
    cases payload with
    | hash x => simp [propose_message, Payload.as_hash, to_prevote,
        to_step] at h
    | garbage =>
      simp [propose_message, Payload.as_hash] at h
      exact h.2.symm
  | Prevote v =>
    simp [propose_message] at h
    exact h.2.symm
  | Precommit v acc =>
    simp [propose_message] at h
    exact h.2.symm
  | Commit hsh acc =>
    simp [propose_message] at h
    exact h.2.symm

/-- Helper: `prevote_message` leaves the state untouched whenever it
returns an error. -/
theorem prevote_message_err_stable (p : TendermintParams) (sender : Address)
    (payload : Payload) (st : EngineState) (e : Error) (st' : EngineState)
    (h : prevote_message p sender payload st = EResult.err e st') :
    st' = st := by
  obtain ⟨r, s, n⟩ := st
  cases s with
  | Prevote v =>
    cases payload with
    | hash x =>
      by_cases hv : v.hash = x
      · by_cases hw : ((v.vote sender).2).is_won = true
        · simp [prevote_message, Payload.as_hash, hv, hw, to_precommit,
            to_step] at h
        · simp [prevote_message, Payload.as_hash, hv, hw] at h
      · simp [prevote_message, Payload.as_hash, hv] at h
        exact h.2.symm
    | garbage =>
      simp [prevote_message, Payload.as_hash] at h
      exact h.2.symm
  | Propose =>
    simp [prevote_message] at h
    exact h.2.symm
  | Precommit v acc =>
    simp [prevote_message] at h
    exact h.2.symm
  | Commit hsh acc =>
    simp [prevote_message] at h
    exact h.2.symm

/-- Helper: `precommit_message` leaves the state untouched whenever it
returns an error. -/
theorem precommit_message_err_stable (p : TendermintParams)
    (encodeSig : H520 → Bytes) (sender : Address) (signature : H520)
    (payload : Payload) (st : EngineState) (e : Error) (st' : EngineState)
    (h : precommit_message p encodeSig sender signature payload st
      = EResult.err e st') : st' = st := by
  obtain ⟨r, s, n⟩ := st
  cases s with
  | Precommit v acc =>
    cases payload with
    | hash x =>
      by_cases hv : v.hash = x
      · by_cases hw : ((v.vote sender).2).is_won = true
        · simp [precommit_message, Payload.as_hash, hv, hw, to_commit,
            to_step] at h
        · simp [precommit_message, Payload.as_hash, hv, hw] at h
      · simp [precommit_message, Payload.as_hash, hv] at h
        exact h.2.symm
    | garbage =>
      simp [precommit_message, Payload.as_hash] at h
      exact h.2.symm
  | Propose =>
    simp [precommit_message] at h
    exact h.2.symm
  | Prevote v =>
    simp [precommit_message] at h
    exact h.2.symm
  | Commit hsh acc =>
    simp [precommit_message] at h
    exact h.2.symm

/-- Claim C5: whenever `handle_message` returns an error the whole engine
state — round, step (hence vote collector and accumulated seal) and
proposer nonce — is unchanged. -/
theorem handle_message_err_no_mutation (p : TendermintParams)
    (encodeSig : H520 → Bytes) (sender : Address) (signature : H520)
    (message : RawMsg) (st : EngineState) (e : Error) (st' : EngineState)
    (h : handle_message p encodeSig sender signature message st
      = EResult.err e st') : st' = st := by
  cases message with
  | malformed =>
    simp [handle_message] at h
    exact h.2.symm
  | msg round tag payload =>
    unfold handle_message at h
    by_cases hr : st.r ≠ round
    · simp [hr] at h
      exact h.2.symm
    · simp [hr] at h
      by_cases h0 : tag = 0
      · simp [h0] at h
        by_cases hp : is_proposer p st.proposer_nonce sender
        · rw [if_pos hp] at h
          exact propose_message_err_stable p payload st e st' h
        · simp [hp] at h
          exact h.2.symm
      · by_cases h1 : tag = 1
        · simp [h0, h1] at h
          by_cases hv : is_validator p sender
          · rw [if_pos hv] at h
            exact prevote_message_err_stable p sender payload st e st' h
          · simp [hv] at h
            exact h.2.symm
        · by_cases h2 : tag = 2
          · simp [h0, h1, h2] at h
            by_cases hv : is_validator p sender
            · rw [if_pos hv] at h
              exact precommit_message_err_stable p encodeSig sender
                signature payload st e st' h
            · simp [hv] at h
              exact h.2.symm
          · simp [h0, h1, h2] at h
            exact h.2.symm

/-- Witness for C5: a `WrongVote` prevote against a prevote-step engine. -/
theorem handle_message_err_no_mutation_witness :
    EngineState.mk 0 (Step.Prevote (new_vote p4 77)) 0
      = EngineState.mk 0 (Step.Prevote (new_vote p4 77)) 0 :=
  handle_message_err_no_mutation p4 encId 10 9
    (RawMsg.msg 0 1 (Payload.hash 78))
    ⟨0, Step.Prevote (new_vote p4 77), 0⟩
    (Error.Engine EngineError.WrongVote)
    ⟨0, Step.Prevote (new_vote p4 77), 0⟩ (by decide)

/-- Claim C6: only the address at `validators[nonce mod n]` can submit a
`Propose` (any other sender's tag-0 message errors), and one `to_propose`
call increments the nonce by exactly one, shifting the eligible proposer to
`validators[(nonce+1) mod n]`. -/
theorem proposer_schedule (p : TendermintParams) (encodeSig : H520 → Bytes)
    (sender : Address) (signature : H520) (st : EngineState)
    (hs : proposer p st.proposer_nonce ≠ some sender) :
    (∀ round payload, ∃ e st0,
        handle_message p encodeSig sender signature
          (RawMsg.msg round 0 payload) st = EResult.err e st0)
    ∧ ∃ st', to_propose false st = some st'
        ∧ st'.proposer_nonce = st.proposer_nonce + 1
        ∧ st'.s = Step.Propose
        ∧ ∀ a, (is_proposer p st'.proposer_nonce a = true ↔
            p.validators.get? ((st.proposer_nonce + 1) % p.validator_n)
              = some a) := by
  constructor
  · intro round payload
    by_cases hr : st.r ≠ round
    · exact ⟨Error.Engine EngineError.WrongRound, st, by
        simp [handle_message, hr]⟩
    · refine ⟨Error.Engine EngineError.UnknownStep, st, ?_⟩
      have hp : is_proposer p st.proposer_nonce sender = false := by
        simp [is_proposer, hs]
      simp [handle_message, hr, hp]
  · refine ⟨⟨st.r, Step.Propose, st.proposer_nonce + 1⟩, ?_, rfl, rfl, ?_⟩
    · simp [to_propose, to_step]
    · intro a
      simp [is_proposer, proposer]

/-- Witness for C6: in `p4` with nonce 0 the scheduled proposer is
validator `10`, so sender `11` fails, and after `to_propose` the schedule
points at `validators[1 mod 4] = 11`. -/
theorem proposer_schedule_witness :
    (∃ e st0,
        handle_message p4 encId 11 9 (RawMsg.msg 0 0 (Payload.hash 77))
          ⟨0, Step.Propose, 0⟩ = EResult.err e st0)
    ∧ ∃ st', to_propose false ⟨0, Step.Propose, 0⟩ = some st'
        ∧ st'.proposer_nonce = 0 + 1
        ∧ st'.s = Step.Propose
        ∧ ∀ a, (is_proposer p4 st'.proposer_nonce a = true ↔
            p4.validators.get? ((0 + 1) % p4.validator_n) = some a) := by
  have h := proposer_schedule p4 encId 11 9 ⟨0, Step.Propose, 0⟩ (by decide)
  exact ⟨h.1 0 (Payload.hash 77), h.2⟩

/-- Claim C2 (failing behavior): in `Step::Precommit` a matching vote is
registered and, when newly counted, the encoded signature is appended to
the accumulating seal; but when the collector thereby becomes won,
`precommit_message` does *not* transition to `Step::Commit` — the nested
`to_commit`/`to_step` runs while the match-scrutinee write guard is still
alive, so the step-lock `try_write().unwrap()` panics. -/
theorem precommit_quorum_vote_panics :
    precommit_message p4 encId 11 9 (Payload.hash 77)
        ⟨0, Step.Precommit ⟨77, {10, 11, 12, 13}, {10}, 2⟩ [[1]], 0⟩
      = EResult.ok [77]
          ⟨0, Step.Precommit ⟨77, {10, 11, 12, 13}, {11, 10}, 2⟩
            [[1], [9]], 0⟩
    ∧ precommit_message p4 encId 12 9 (Payload.hash 77)
        ⟨0, Step.Precommit ⟨77, {10, 11, 12, 13}, {10, 11}, 2⟩
          [[1], [9]], 0⟩
      = EResult.panicked := by
  exact ⟨rfl, rfl⟩

/-- Claim C3 (failing behavior): the exposed `handle_message` entry point
reaches the failed step-lock acquisition in sequential use — a third
matching precommit (quorum for `n = 4`) makes the nested `to_step` try to
re-acquire the held write lock, i.e. the call panics instead of returning
a `Result`. -/
theorem handle_message_quorum_panics :
    handle_message p4 encId 13 9 (RawMsg.msg 0 2 (Payload.hash 77))
        ⟨0, Step.Precommit ⟨77, {10, 11, 12, 13}, {10, 11}, 2⟩
          [[1], [2]], 0⟩
      = EResult.panicked := rfl

/-- Helper: `collect` fails fast with the error of the first non-recovering
entry. -/
theorem collectSealSet_first_error (f : Bytes → Except Error Address)
    (xs : Seal) (b : Bytes) (ys : Seal) (e : Error)
    (hall : ∀ x ∈ xs, ∃ a, f x = Except.ok a) (hb : f b = Except.error e) :
    collectSealSet f (xs ++ b :: ys) = Except.error e := by
  induction xs with
  | nil => simp [collectSealSet, hb]
  | cons x xs ih =>
    obtain ⟨a, ha⟩ := hall x (by simp)
    have ih' := ih (fun y hy => hall y (by simp [hy]))
    simp [collectSealSet, ha, ih']

/-- Claim C8: `verify_block_unordered` recovers one address per raw seal
entry over the bare hash, fails fast with the first entry that does not
recover, and otherwise succeeds iff the recovered set intersected with the
validator set is strictly larger than the threshold; below that it fails
with `InvalidSeal`. -/
theorem verify_unordered_characterisation (p : TendermintParams)
    (toAddr : Bytes → BlockHash → Except Error Address) (header : Header) :
    (verify_block_unordered p toAddr header = Except.ok () ↔
        ∃ s, collectSealSet (fun b => toAddr b header.bare_hash)
              header.sealEntries = Except.ok s
          ∧ threshold p < (s ∩ validatorSet p).card)
    ∧ (∀ s, collectSealSet (fun b => toAddr b header.bare_hash)
            header.sealEntries = Except.ok s →
        (s ∩ validatorSet p).card ≤ threshold p →
        verify_block_unordered p toAddr header
          = Except.error (Error.Block BlockError.InvalidSeal))
    ∧ (∀ e, collectSealSet (fun b => toAddr b header.bare_hash)
            header.sealEntries = Except.error e →
        verify_block_unordered p toAddr header = Except.error e)
    ∧ (∀ xs b ys e, header.sealEntries = xs ++ b :: ys →
        (∀ x ∈ xs, ∃ a, toAddr x header.bare_hash = Except.ok a) →
        toAddr b header.bare_hash = Except.error e →
        verify_block_unordered p toAddr header = Except.error e) := by
  refine ⟨?_, ?_, ?_, ?_⟩
  · unfold verify_block_unordered
    cases hc : collectSealSet (fun b => toAddr b header.bare_hash)
        header.sealEntries with
    | error e => simp
    | ok s =>
      by_cases hcard : (s ∩ validatorSet p).card ≤ threshold p
      · simp [hcard, Nat.not_lt_of_le hcard]
      · simp [hcard, Nat.lt_of_not_le hcard]
  · intro s hc hcard
    unfold verify_block_unordered
    rw [hc]
    simp [hcard]
  · intro e hc
    unfold verify_block_unordered
    rw [hc]
  · intro xs b ys e hseal hall hb
    have hc : collectSealSet (fun b => toAddr b header.bare_hash)
        header.sealEntries = Except.error e := by
      rw [hseal]
      exact collectSealSet_first_error _ xs b ys e hall hb
    unfold verify_block_unordered
    rw [hc]

/-- Concrete recovery function for witnesses: a nonempty entry recovers to
the address given by its first byte, an empty entry fails to recover. -/
def addrOf : Bytes → BlockHash → Except Error Address :=
  fun b _ =>
    match b with
    | a :: _ => Except.ok a
    | [] => Except.error Error.Crypto

/-- Witness for C8: two signatures by outsiders `98`, `99` (0 of 4
validators, threshold 2) fail with `InvalidSeal`, and a non-recovering
second entry fails fast with its error. -/
theorem verify_unordered_characterisation_witness :
    verify_block_unordered p4 addrOf ⟨1, 0, 0, [[99], [98]], 77⟩
      = Except.error (Error.Block BlockError.InvalidSeal)
    ∧ verify_block_unordered p4 addrOf ⟨1, 0, 0, [[10], []], 77⟩
      = Except.error Error.Crypto := by
  constructor
  · exact (verify_unordered_characterisation p4 addrOf
      ⟨1, 0, 0, [[99], [98]], 77⟩).2.1 {99, 98} rfl (by decide)
  · exact (verify_unordered_characterisation p4 addrOf
      ⟨1, 0, 0, [[10], []], 77⟩).2.2.2 [[10]] [] [] Error.Crypto
      rfl (by intro x hx; simp at hx; exact ⟨10, by subst hx; rfl⟩) rfl

/-- Helper: `verify_block_unordered` on a header with a replaced seal is
the intersection-threshold test applied to the collected recovered-address
set of that seal. -/
theorem verify_block_unordered_collect (p : TendermintParams)
    (toAddr : Bytes → BlockHash → Except Error Address) (header : Header)
    (l : Seal) :
    verify_block_unordered p toAddr { header with sealEntries := l }
      = match collectSealSet (fun b => toAddr b header.bare_hash) l with
        | Except.error e => Except.error e
        | Except.ok s =>
          if (s ∩ validatorSet p).card ≤ threshold p then
            Except.error (Error.Block BlockError.InvalidSeal)
          else Except.ok () := rfl

/-- Helper: inserting, at any position, an entry that recovers to `a` maps
the collected result through `insert a` (first error unchanged, since the
inserted entry recovers). -/
theorem collectSealSet_insert_entry (f : Bytes → Except Error Address)
    (us vs : Seal) (b' : Bytes) (a : Address) (hb' : f b' = Except.ok a) :
    collectSealSet f (us ++ b' :: vs)
      = Except.map (insert a) (collectSealSet f (us ++ vs)) := by
  induction us with
  | nil =>
    cases hvs : collectSealSet f vs with
    | error e => simp [collectSealSet, hb', hvs, Except.map]
    | ok s => simp [collectSealSet, hb', hvs, Except.map]
  | cons x us ih =>
    cases hx : f x with
    | error e => simp [collectSealSet, hx, Except.map]
    | ok ax =>
      cases hrest : collectSealSet f (us ++ vs) with
      | error e =>
        rw [hrest] at ih
        simp [collectSealSet, hx, List.append_eq, ih, hrest, Except.map]
      | ok s =>
        rw [hrest] at ih
        simp only [Except.map] at ih
        simp [collectSealSet, hx, List.append_eq, ih, hrest, Except.map,
          Finset.Insert.comm a ax]

/-- Helper: if entry `b` of the seal recovers to `a` and the whole seal
collects to the set `s`, then `a ∈ s`. -/
theorem collectSealSet_mem_of_ok (f : Bytes → Except Error Address)
    (l : Seal) (b : Bytes) (a : Address) (hmem : b ∈ l)
    (hb : f b = Except.ok a) :
    ∀ s, collectSealSet f l = Except.ok s → a ∈ s := by
  induction l with
  | nil => simp at hmem
  | cons x l ih =>
    intro s hc
    cases hx : f x with
    | error e => simp [collectSealSet, hx] at hc
    | ok ax =>
      cases hl : collectSealSet f l with
      | error e => simp [collectSealSet, hx, hl] at hc
      | ok s' =>
        simp [collectSealSet, hx, hl] at hc
        rcases List.mem_cons.mp hmem with hbx | hbl
        · subst hbx
          rw [hb] at hx
          cases hx
          rw [← hc]
          exact Finset.mem_insert_self a s'
        · rw [← hc]
          exact Finset.mem_insert_of_mem (ih hbl s' hl)

/-- Helper: a seal containing an entry that fails to recover collects to
some error (whichever failing entry comes first). -/
theorem collectSealSet_error_of_mem (f : Bytes → Except Error Address)
    (l : Seal) (b : Bytes) (e : Error) (hmem : b ∈ l)
    (hb : f b = Except.error e) :
    ∃ e', collectSealSet f l = Except.error e' := by
  induction l with
  | nil => simp at hmem
  | cons x l ih =>
    cases hx : f x with
    | error e2 => exact ⟨e2, by simp [collectSealSet, hx]⟩
    | ok ax =>
      rcases List.mem_cons.mp hmem with hbx | hbl
      · subst hbx
        rw [hb] at hx
        cases hx
      · obtain ⟨e', he'⟩ := ih hbl
        exact ⟨e', by simp [collectSealSet, hx, he']⟩

/-- Helper: adding, at any position, a signature recovering to an address
already recovered by some entry of the seal never changes the outcome of
`verify_block_unordered`. -/
theorem verify_unordered_add_counted (p : TendermintParams)
    (toAddr : Bytes → BlockHash → Except Error Address) (header : Header)
    (us vs : Seal) (b b' : Bytes) (a : Address)
    (hb' : toAddr b' header.bare_hash = Except.ok a) (hmem : b ∈ us ++ vs)
    (hb : toAddr b header.bare_hash = Except.ok a) :
    verify_block_unordered p toAddr
        { header with sealEntries := us ++ b' :: vs }
      = verify_block_unordered p toAddr
          { header with sealEntries := us ++ vs } := by
  rw [verify_block_unordered_collect, verify_block_unordered_collect]
  rw [collectSealSet_insert_entry (fun x => toAddr x header.bare_hash)
    us vs b' a hb']
  cases hrest : collectSealSet (fun x => toAddr x header.bare_hash)
      (us ++ vs) with
  | error e => simp [Except.map]
  | ok s =>
    have ha : a ∈ s :=
      collectSealSet_mem_of_ok (fun x => toAddr x header.bare_hash)
        (us ++ vs) b a hmem hb s hrest
    simp [Except.map, Finset.insert_eq_self.mpr ha]

/-- Claim C10: the outcome of `verify_block_unordered` depends only on the
set of distinct addresses recovered from the seal entries: two seals that
recover to the same address set verify identically; adding, at any
position, a further signature by an already-counted signer never changes
the result; and duplicating any seal entry, at any position, never changes
the verdict — so repeated signatures from the same validator cannot help
meet the quorum threshold. -/
theorem verify_unordered_set_dependence (p : TendermintParams)
    (toAddr : Bytes → BlockHash → Except Error Address) (header : Header) :
    (∀ l1 l2 s,
        collectSealSet (fun b => toAddr b header.bare_hash) l1
          = Except.ok s →
        collectSealSet (fun b => toAddr b header.bare_hash) l2
          = Except.ok s →
        verify_block_unordered p toAddr { header with sealEntries := l1 }
          = verify_block_unordered p toAddr { header with sealEntries := l2 })
    ∧ (∀ us vs b b' a, toAddr b' header.bare_hash = Except.ok a →
        b ∈ us ++ vs → toAddr b header.bare_hash = Except.ok a →
        verify_block_unordered p toAddr
            { header with sealEntries := us ++ b' :: vs }
          = verify_block_unordered p toAddr
              { header with sealEntries := us ++ vs })
    ∧ (∀ us vs b, b ∈ us ++ vs →
        (verify_block_unordered p toAddr
            { header with sealEntries := us ++ b :: vs } = Except.ok ()
          ↔ verify_block_unordered p toAddr
              { header with sealEntries := us ++ vs } = Except.ok ())) := by
  refine ⟨?_, ?_, ?_⟩
  · intro l1 l2 s h1 h2
    rw [verify_block_unordered_collect, verify_block_unordered_collect,
      h1, h2]
  · intro us vs b b' a hb' hmem hb
    exact verify_unordered_add_counted p toAddr header us vs b b' a hb'
      hmem hb
  · intro us vs b hmem
    cases hb : toAddr b header.bare_hash with
    | ok a =>
      rw [verify_unordered_add_counted p toAddr header us vs b b a hb
        hmem hb]
    | error e =>
      constructor
      · intro hok
        obtain ⟨e', he'⟩ :=
          collectSealSet_error_of_mem (fun x => toAddr x header.bare_hash)
            (us ++ b :: vs) b e (by simp) hb
        rw [verify_block_unordered_collect, he'] at hok
        cases hok
      · intro hok
        obtain ⟨e', he'⟩ :=
          collectSealSet_error_of_mem (fun x => toAddr x header.bare_hash)
            (us ++ vs) b e hmem hb
        rw [verify_block_unordered_collect, he'] at hok
        cases hok

/-- Witness for C10: a repeated signature by validator `10` at the end of
the seal — behind validator `11`'s entry — neither changes the result
(`[sig10, sig11, sig10h]` with a different byte-string recovering to `10`)
nor the verdict (an exact duplicate of the first entry). -/
theorem verify_unordered_set_dependence_witness :
    verify_block_unordered p4 addrOf ⟨1, 0, 0, [[10], [11], [10, 99]], 77⟩
      = verify_block_unordered p4 addrOf ⟨1, 0, 0, [[10], [11]], 77⟩
    ∧ (verify_block_unordered p4 addrOf ⟨1, 0, 0, [[10], [11], [10]], 77⟩
          = Except.ok ()
      ↔ verify_block_unordered p4 addrOf ⟨1, 0, 0, [[10], [11]], 77⟩
          = Except.ok ()) := by
  constructor
  · exact (verify_unordered_set_dependence p4 addrOf ⟨1, 0, 0, [], 77⟩).2.1
      [[10], [11]] [] [10] [10, 99] 10 rfl (by simp) rfl
  · exact (verify_unordered_set_dependence p4 addrOf ⟨1, 0, 0, [], 77⟩).2.2
      [[10], [11]] [] [10] (by simp)

/-- Claim C9: `verify_block_family` rejects number 0 with
`RidiculousNumber`, a difficulty change with `InvalidDifficulty`, a gas
limit outside the open interval
`(parent - parent/divisor, parent + parent/divisor)` with `InvalidGasLimit`
carrying the computed bounds, and accepts everything else. -/
theorem verify_family_rules (p : TendermintParams) (header parent : Header) :
    (header.number = 0 →
      verify_block_family p header parent
        = Except.error
            (Error.Block (BlockError.RidiculousNumber header.number)))
    ∧ (header.number ≠ 0 → header.difficulty ≠ parent.difficulty →
        verify_block_family p header parent
          = Except.error
              (Error.Block (BlockError.InvalidDifficulty parent.difficulty
                header.difficulty)))
    ∧ (header.number ≠ 0 → header.difficulty = parent.difficulty →
        (header.gas_limit ≤
            parent.gas_limit - parent.gas_limit / p.gas_limit_bound_divisor
          ∨ parent.gas_limit + parent.gas_limit / p.gas_limit_bound_divisor
            ≤ header.gas_limit) →
        verify_block_family p header parent
          = Except.error
              (Error.Block (BlockError.InvalidGasLimit
                (parent.gas_limit
                  - parent.gas_limit / p.gas_limit_bound_divisor)
                (parent.gas_limit
                  + parent.gas_limit / p.gas_limit_bound_divisor)
                header.gas_limit)))
    ∧ (header.number ≠ 0 → header.difficulty = parent.difficulty →
        parent.gas_limit - parent.gas_limit / p.gas_limit_bound_divisor
          < header.gas_limit →
        header.gas_limit
          < parent.gas_limit + parent.gas_limit / p.gas_limit_bound_divisor →
        verify_block_family p header parent = Except.ok ()) := by
  refine ⟨?_, ?_, ?_, ?_⟩
  · intro h0
    simp [verify_block_family, h0]
  · intro h0 hd
    simp [verify_block_family, h0, hd]
  · intro h0 hd hg
    simp [verify_block_family, h0, hd, hg]
  · intro h0 hd hlo hhi
    simp [verify_block_family, h0, hd, Nat.not_le_of_lt hlo,
      Nat.not_le_of_lt hhi]

/-- Witness for C9: with divisor 1024 and parent gas limit 10240 the open
interval is `(10230, 10250)`; an unchanged header passes, a header at the
lower bound fails with the computed bounds. -/
theorem verify_family_rules_witness :
    verify_block_family p4 ⟨1, 5, 10240, [], 0⟩ ⟨0, 5, 10240, [], 0⟩
      = Except.ok ()
    ∧ verify_block_family p4 ⟨1, 5, 10230, [], 0⟩ ⟨0, 5, 10240, [], 0⟩
      = Except.error
          (Error.Block (BlockError.InvalidGasLimit 10230 10250 10230)) := by
  constructor
  · exact (verify_family_rules p4 ⟨1, 5, 10240, [], 0⟩
      ⟨0, 5, 10240, [], 0⟩).2.2.2 (by decide) rfl (by decide) (by decide)
  · exact (verify_family_rules p4 ⟨1, 5, 10230, [], 0⟩
      ⟨0, 5, 10240, [], 0⟩).2.2.1 (by decide) rfl (by decide)
